import Mathlib

/-!
# Participant Read/Update Service — verification development

Shallow embedding of the participant store of a video-call roster backend
(`backend/models.py`, `backend/main.py`) and proofs about its list, count,
get and partial-update operations.

The database table is modelled as a `List Participant`; `datetime` instants
are modelled as natural numbers; SQL `ILIKE` pattern matching is modelled
faithfully over character lists (`%` matches any sequence, `_` matches one
character, both sides lowercased).  The HTTP parameter layer (FastAPI query
coercion and the registered route table) is embedded where claims depend
on it.
-/

namespace VideoCall

/-! ## Character-level machinery: lowering, substring test, SQL LIKE -/

/-- Lowercase every character (models SQL lowercasing in `ilike`). -/
def lowerChars (l : List Char) : List Char := l.map Char.toLower

/-- `startsWithChars n h`: the list `n` is a prefix of `h` (literal match). -/
def startsWithChars : List Char → List Char → Bool
  | [], _ => true
  | _ :: _, [] => false
  | c :: cs, d :: ds => c == d && startsWithChars cs ds

/-- `hasSubChars n h`: `n` occurs inside `h` as a contiguous sublist. -/
def hasSubChars (n : List Char) : List Char → Bool
  | [] => n.isEmpty
  | d :: ds => startsWithChars n (d :: ds) || hasSubChars n ds

/-- All suffixes of a list, longest first, ending with `[]`. -/
def suffixes : List Char → List (List Char)
  | [] => [[]]
  | c :: cs => (c :: cs) :: suffixes cs

/-- SQL LIKE pattern matching over raw character lists: `%` matches any
sequence (the rest of the pattern must match some suffix of the text),
`_` matches exactly one character, anything else matches itself. -/
def likeChars : List Char → List Char → Bool
  | [], t => t.isEmpty
  | p :: ps, t =>
    if p = '%' then (suffixes t).any (likeChars ps)
    else
      match t with
      | [] => false
      | c :: ts => (p == '_' || p == c) && likeChars ps ts

/-- Case-insensitive SQL LIKE, as SQLAlchemy's `ilike`: both the pattern and
the text are lowercased, then LIKE-matched. -/
def sqlIlike (pat text : String) : Bool :=
  likeChars (lowerChars pat.data) (lowerChars text.data)

/-- Spec-side notion: `needle` occurs in `hay` as a case-insensitive
(literal) substring. -/
def containsCI (needle hay : String) : Bool :=
  hasSubChars (lowerChars needle.data) (lowerChars hay.data)

/-- `s` contains neither of the SQL LIKE wildcard characters `%` and `_`. -/
def noWildcards (s : String) : Bool :=
  s.data.all (fun c => !(c == '%') && !(c == '_'))

/-! ## Data model (`backend/models.py`) -/

/-- One row of the `participants` table.  Booleans default to `false` and
both timestamps default to the current time at creation (`models.py`). -/
structure Participant where
  id : Int
  name : String
  role : String
  email : String
  about_me : Option String
  resume_url : Option String
  mic_on : Bool
  camera_on : Bool
  online : Bool
  created_at : Nat
  updated_at : Nat
deriving Repr, DecidableEq

/-- A participant created through the model defaults (`models.py`): flags
`false`, `created_at` and `updated_at` both set to the current time `now`. -/
def mkParticipant (pid : Int) (name role email : String)
    (about resume : Option String) (now : Nat) : Participant :=
  { id := pid, name := name, role := role, email := email,
    about_me := about, resume_url := resume,
    mic_on := false, camera_on := false, online := false,
    created_at := now, updated_at := now }

/-! ## Read operations (`backend/main.py`) -/

/-- The search filter of `get_participants`: row kept when its `name`
matches `%search%` case-insensitively (`Participant.name.ilike`). -/
def filterPred (search : String) (p : Participant) : Bool :=
  sqlIlike ("%" ++ search ++ "%") p.name

/-- `if search:` — the filter is applied only when `search` is non-empty. -/
def filterSearch (search : String) (db : List Participant) : List Participant :=
  if search.isEmpty then db else db.filter (filterPred search)

/-- `order_by(Participant.id)` comparison. -/
def idLe (p q : Participant) : Prop := p.id ≤ q.id

instance : DecidableRel idLe := fun p q => inferInstanceAs (Decidable (p.id ≤ q.id))

instance : IsTotal Participant idLe := ⟨fun p q => Int.le_total p.id q.id⟩

instance : IsTrans Participant idLe := ⟨fun _ _ _ h h' => le_trans h h'⟩

/-- `OFFSET` clause.  A negative offset behaves like zero (SQLite, the
engine the repository's test harness runs against). -/
def applyOffset (offset : Int) (l : List Participant) : List Participant :=
  l.drop offset.toNat

/-- `LIMIT` clause.  A negative limit means no limit (SQLite). -/
def applyLimit (limit : Int) (l : List Participant) : List Participant :=
  if limit < 0 then l else l.take limit.toNat

/-- `GET /participants` body: filter by name, order by id ascending,
apply offset then limit (`main.py`, `get_participants`). -/
def get_participants (search : String) (limit offset : Int)
    (db : List Participant) : List Participant :=
  applyLimit limit (applyOffset offset (List.insertionSort idLe (filterSearch search db)))

/-- `GET /participants/count` body: `func.count(Participant.id)` over the
same name filter; `id` is the primary key and never NULL, so the count is
the number of filtered rows (`main.py`, `get_participants_count`). -/
def get_participants_count (search : String) (db : List Participant) : Nat :=
  (filterSearch search db).length

/-- Errors surfaced by the endpoints: 422 validation failures and 404
`HTTPException(status_code=404, detail=...)`. -/
inductive ApiError where
  | validation
  | notFound (detail : String)
deriving Repr, DecidableEq

deriving instance DecidableEq for Except

/-- `GET /participants/{participant_id}`: first row with that id, else a
404 with detail "Participant not found" (`main.py`, `get_participant`). -/
def get_participant (pid : Int) (db : List Participant) :
    Except ApiError Participant :=
  match db.find? (fun p => p.id == pid) with
  | some p => .ok p
  | none => .error (.notFound "Participant not found")

/-! ## Update operations (`backend/main.py`) -/

/-- Shared shape of the four update endpoints: locate the first row whose
id matches, apply the mutation `f` to it in place, and return the mutated
row together with the new table; `none` when no row matches. -/
def applyUpdate (pid : Int) (f : Participant → Participant) :
    List Participant → Option (Participant × List Participant)
  | [] => none
  | q :: qs =>
    if q.id == pid then some (f q, f q :: qs)
    else
      match applyUpdate pid f qs with
      | none => none
      | some (r, qs') => some (r, q :: qs')

/-- The common endpoint wrapper: 404 with detail "Participant not found"
and an untouched table when no row matches, otherwise the mutated row and
the committed table. -/
def runUpdate (pid : Int) (f : Participant → Participant)
    (db : List Participant) : Except ApiError Participant × List Participant :=
  match applyUpdate pid f db with
  | none => (.error (.notFound "Participant not found"), db)
  | some (p, db') => (.ok p, db')

/-- `PATCH /participants/{participant_id}/microphone`: set `mic_on` and
`updated_at`, commit, return the row (`main.py`, `update_microphone`). -/
def update_microphone (pid : Int) (mic : Bool) (now : Nat)
    (db : List Participant) : Except ApiError Participant × List Participant :=
  runUpdate pid (fun p => { p with mic_on := mic, updated_at := now }) db

/-- `PATCH /participants/{participant_id}/camera` (`main.py`, `update_camera`). -/
def update_camera (pid : Int) (cam : Bool) (now : Nat)
    (db : List Participant) : Except ApiError Participant × List Participant :=
  runUpdate pid (fun p => { p with camera_on := cam, updated_at := now }) db

/-- `PATCH /participants/{participant_id}/status` (`main.py`, `update_status`). -/
def update_status (pid : Int) (onl : Bool) (now : Nat)
    (db : List Participant) : Except ApiError Participant × List Participant :=
  runUpdate pid (fun p => { p with online := onl, updated_at := now }) db

/-- `PATCH /participants/{participant_id}/media`: sets both `mic_on` and
`camera_on` in one operation (`main.py`, `update_media`). -/
def update_media (pid : Int) (mic cam : Bool) (now : Nat)
    (db : List Participant) : Except ApiError Participant × List Participant :=
  runUpdate pid (fun p => { p with mic_on := mic, camera_on := cam, updated_at := now }) db

/-! ## HTTP layer: query-parameter coercion and the route table -/

/-- Decimal digit run to a number; `none` on any non-digit. -/
def parseDigits (acc : Nat) : List Char → Option Nat
  | [] => some acc
  | c :: cs =>
    if c.isDigit then parseDigits (acc * 10 + (c.toNat - 48)) cs else none

/-- Integer coercion applied by FastAPI to a `: int` query parameter:
an optional leading minus sign followed by at least one digit. -/
def parseIntString (s : String) : Option Int :=
  match s.data with
  | [] => none
  | '-' :: cs =>
    if cs.isEmpty then none else (parseDigits 0 cs).map (fun n => -(n : Int))
  | cs => (parseDigits 0 cs).map (fun n => (n : Int))

/-- A `: int` query parameter: absent means the declared default, present
means FastAPI integer coercion (422 on failure, i.e. `none` here). -/
def parseIntParam (raw : Option String) (default : Int) : Option Int :=
  match raw with
  | none => some default
  | some s => parseIntString s

/-- The whole `GET /participants` endpoint including FastAPI parameter
handling: `search` defaults to `""`, `limit : int = 6`, `offset : int = 0`.
The source declares no range constraint on `limit` or `offset`, so only a
failed integer coercion yields a 422. -/
def listEndpoint (searchRaw limitRaw offsetRaw : Option String)
    (db : List Participant) : Except ApiError (List Participant) :=
  match parseIntParam limitRaw 6, parseIntParam offsetRaw 0 with
  | some limit, some offset =>
    .ok (get_participants (searchRaw.getD "") limit offset db)
  | _, _ => .error .validation

/-- HTTP methods relevant to the app's surface. -/
inductive Method where
  | get | post | put | patch | delete
deriving Repr, DecidableEq

/-- The route table registered on the FastAPI app in `main.py`: one
`(method, path template)` pair per route decorator.  The update routes are
registered with `@app.patch` only. -/
def appRoutes : List (Method × String) :=
  [ (.get, "/"),
    (.get, "/participants"),
    (.get, "/participants/count"),
    (.get, "/participants/{participant_id}"),
    (.patch, "/participants/{participant_id}/media"),
    (.patch, "/participants/{participant_id}/microphone"),
    (.patch, "/participants/{participant_id}/camera"),
    (.patch, "/participants/{participant_id}/status") ]

/-- A request with the given method and path template is accepted by the
app exactly when that pair was registered. -/
def acceptsRoute (m : Method) (path : String) : Bool :=
  appRoutes.contains (m, path)

/-! ## Reachable store states

A state is the table plus the time of the last state-changing event; the
clock is strictly monotone across events ("assuming clock monotonicity").
Records enter the table through creation with the model defaults and are
mutated only by the four update operations (the spec's lifecycle: no
deletion). -/

/-- One state-changing event of the store. -/
inductive Step : List Participant × Nat → List Participant × Nat → Prop where
  | create (db : List Participant) (now : Nat) (pid : Int)
      (nm rl em : String) (ab rs : Option String) (now' : Nat) :
      now < now' →
      Step (db, now) (db ++ [mkParticipant pid nm rl em ab rs now'], now')
  | updateMic (db : List Participant) (now : Nat) (pid : Int) (mic : Bool) (now' : Nat) :
      now < now' →
      Step (db, now) ((update_microphone pid mic now' db).2, now')
  | updateCam (db : List Participant) (now : Nat) (pid : Int) (cam : Bool) (now' : Nat) :
      now < now' →
      Step (db, now) ((update_camera pid cam now' db).2, now')
  | updateSt (db : List Participant) (now : Nat) (pid : Int) (onl : Bool) (now' : Nat) :
      now < now' →
      Step (db, now) ((update_status pid onl now' db).2, now')
  | updateMed (db : List Participant) (now : Nat) (pid : Int) (mic cam : Bool) (now' : Nat) :
      now < now' →
      Step (db, now) ((update_media pid mic cam now' db).2, now')

/-- States reachable from an empty table. -/
inductive Reachable : List Participant × Nat → Prop where
  | init (now : Nat) : Reachable ([], now)
  | step {s s' : List Participant × Nat} : Reachable s → Step s s' → Reachable s'

/-! ## Frame predicates (spec-side, §4: "mutates exactly the named field(s)") -/

/-- All fields of `r` other than `mic_on` and `updated_at` agree with `p`. -/
def SameExceptMicTime (p r : Participant) : Prop :=
  r.id = p.id ∧ r.name = p.name ∧ r.email = p.email ∧ r.role = p.role ∧
  r.about_me = p.about_me ∧ r.resume_url = p.resume_url ∧
  r.created_at = p.created_at ∧ r.camera_on = p.camera_on ∧ r.online = p.online

/-- All fields of `r` other than `camera_on` and `updated_at` agree with `p`. -/
def SameExceptCamTime (p r : Participant) : Prop :=
  r.id = p.id ∧ r.name = p.name ∧ r.email = p.email ∧ r.role = p.role ∧
  r.about_me = p.about_me ∧ r.resume_url = p.resume_url ∧
  r.created_at = p.created_at ∧ r.mic_on = p.mic_on ∧ r.online = p.online

/-- All fields of `r` other than `online` and `updated_at` agree with `p`. -/
def SameExceptOnlineTime (p r : Participant) : Prop :=
  r.id = p.id ∧ r.name = p.name ∧ r.email = p.email ∧ r.role = p.role ∧
  r.about_me = p.about_me ∧ r.resume_url = p.resume_url ∧
  r.created_at = p.created_at ∧ r.mic_on = p.mic_on ∧ r.camera_on = p.camera_on

/-- All fields of `r` other than `mic_on`, `camera_on` and `updated_at`
agree with `p`. -/
def SameExceptMediaTime (p r : Participant) : Prop :=
  r.id = p.id ∧ r.name = p.name ∧ r.email = p.email ∧ r.role = p.role ∧
  r.about_me = p.about_me ∧ r.resume_url = p.resume_url ∧
  r.created_at = p.created_at ∧ r.online = p.online

/-! ## Concrete sample records (used by witnesses and counterexamples) -/

/-- Sample participant, as in the spec's seed scenario. -/
def aliceP : Participant :=
  { id := 1, name := "Alice Johnson", role := "Host", email := "alice@test.com",
    about_me := none, resume_url := none, mic_on := true, camera_on := false,
    online := true, created_at := 10, updated_at := 12 }

/-- Second sample participant. -/
def bobP : Participant :=
  { id := 2, name := "Bob Smith", role := "Guest", email := "bob@test.com",
    about_me := none, resume_url := none, mic_on := false, camera_on := false,
    online := false, created_at := 10, updated_at := 11 }

/-- `aliceP` after `UpdateMicrophone(1, false)` at time 20. -/
def alicePMicOff : Participant :=
  { aliceP with mic_on := false, updated_at := 20 }

/-! ## Lemmas -/


/-! Lemma development: LIKE vs substring -/

lemma startsWithChars_nil_right (n : List Char) : startsWithChars n [] = n.isEmpty := by
  cases n <;> rfl

lemma likeChars_nil_left (t : List Char) : likeChars [] t = t.isEmpty := rfl

lemma likeChars_nil_fun : likeChars [] = fun t => t.isEmpty := funext likeChars_nil_left

lemma suffixes_any_nil (t : List Char) :
    (suffixes t).any (fun s => s.isEmpty) = true := by
  induction t with
  | nil => rfl
  | cons c cs ih => simp [suffixes, ih]

lemma likeChars_lit_percent (n : List Char) (hn : ∀ c ∈ n, c ≠ '%' ∧ c ≠ '_') :
    ∀ t, likeChars (n ++ ['%']) t = startsWithChars n t := by
  induction n with
  | nil =>
    intro t
    show likeChars ['%'] t = _
    simp only [likeChars, if_pos rfl, likeChars_nil_fun, startsWithChars]
    exact suffixes_any_nil t
  | cons a n' ih =>
    intro t
    have ha := hn a (by simp)
    have hn' : ∀ c ∈ n', c ≠ '%' ∧ c ≠ '_' := fun c hc => hn c (by simp [hc])
    cases t with
    | nil =>
      simp [likeChars, startsWithChars, ha.1]
    | cons c ts =>
      simp only [List.cons_append, likeChars, startsWithChars, if_neg ha.1]
      have : (a == '_') = false := beq_eq_false_iff_ne.mpr ha.2
      simp [this, ih hn']

lemma likeChars_wrap (n : List Char) (hn : ∀ c ∈ n, c ≠ '%' ∧ c ≠ '_') :
    ∀ t, likeChars ('%' :: (n ++ ['%'])) t = hasSubChars n t := by
  intro t
  induction t with
  | nil =>
    simp only [likeChars]
    simp only [if_true]
    simp only [suffixes, List.any_cons, List.any_nil,
      likeChars_lit_percent n hn, startsWithChars_nil_right, hasSubChars]
    simp
  | cons c ts ih =>
    simp only [likeChars] at ih ⊢
    simp only [if_true] at ih ⊢
    simp only [suffixes, List.any_cons, likeChars_lit_percent n hn, ih, hasSubChars]

lemma toLower_eq_low (x : Char) (hx : x.toNat < 97) (c : Char)
    (h : c.toLower = x) : c = x := by
  unfold Char.toLower at h
  simp only [] at h
  by_cases hc : c.toNat ≥ 65 ∧ c.toNat ≤ 90
  · rw [if_pos hc] at h
    exfalso
    have hvalid : (c.toNat + 32).isValidChar := by
      left
      have := hc.2
      omega
    have hv : (Char.ofNat (c.toNat + 32)).toNat = c.toNat + 32 := by
      rw [Char.ofNat, dif_pos hvalid]
      rfl
    rw [h] at hv
    omega
  · rw [if_neg hc] at h
    exact h

lemma noWildcards_lower {s : String} (h : noWildcards s = true) :
    ∀ c ∈ lowerChars s.data, c ≠ '%' ∧ c ≠ '_' := by
  intro c hc
  simp only [lowerChars, List.mem_map] at hc
  obtain ⟨d, hd, rfl⟩ := hc
  have hd' := List.all_eq_true.mp h d hd
  simp only [Bool.and_eq_true, Bool.not_eq_true', beq_eq_false_iff_ne] at hd'
  constructor
  · intro hcontra
    exact hd'.1 (toLower_eq_low '%' (by decide) d hcontra)
  · intro hcontra
    exact hd'.2 (toLower_eq_low '_' (by decide) d hcontra)

lemma filterPred_eq_containsCI {search : String} (h : noWildcards search = true)
    (p : Participant) : filterPred search p = containsCI search p.name := by
  unfold filterPred sqlIlike containsCI
  have hdata : ("%" ++ search ++ "%").data = '%' :: (search.data ++ ['%']) := by
    simp [String.data_append]
  rw [hdata]
  have hlow : lowerChars ('%' :: (search.data ++ ['%'])) =
      '%' :: (lowerChars search.data ++ ['%']) := by
    simp [lowerChars]
  rw [hlow, likeChars_wrap (lowerChars search.data) (noWildcards_lower h)]

/-! Query helper lemmas -/

lemma get_participants_sublist (search : String) (limit offset : Int)
    (db : List Participant) :
    List.Sublist (get_participants search limit offset db)
      (List.insertionSort idLe (filterSearch search db)) := by
  unfold get_participants applyLimit applyOffset
  by_cases h : limit < 0
  · rw [if_pos h]
    exact List.drop_sublist _ _
  · rw [if_neg h]
    exact (List.take_sublist _ _).trans (List.drop_sublist _ _)

lemma mem_filterSearch {search : String} {p : Participant} {db : List Participant}
    (hp : p ∈ filterSearch search db) : p ∈ db := by
  unfold filterSearch at hp
  by_cases h : search.isEmpty
  · rwa [if_pos h] at hp
  · rw [if_neg h] at hp
    exact List.mem_of_mem_filter hp

lemma mem_get_participants {search : String} {limit offset : Int}
    {db : List Participant} {p : Participant}
    (hp : p ∈ get_participants search limit offset db) : p ∈ db := by
  have h1 := (get_participants_sublist search limit offset db).subset hp
  rw [List.mem_insertionSort] at h1
  exact mem_filterSearch h1

lemma pred_of_mem_get {search : String} {limit offset : Int}
    {db : List Participant} {p : Participant} (hs : search ≠ "")
    (hp : p ∈ get_participants search limit offset db) :
    filterPred search p = true := by
  have h1 := (get_participants_sublist search limit offset db).subset hp
  rw [List.mem_insertionSort] at h1
  unfold filterSearch at h1
  rw [if_neg (fun hemp => hs ((String.isEmpty_iff search).mp hemp))] at h1
  exact (List.mem_filter.mp h1).2

lemma unpaginated_eq (search : String) (db : List Participant) :
    get_participants search (-1) 0 db =
      List.insertionSort idLe (filterSearch search db) := by
  unfold get_participants applyLimit applyOffset
  rw [if_pos (by decide : (-1 : Int) < 0)]
  simp

/-! Update helper lemmas -/

lemma applyUpdate_none_iff (pid : Int) (f : Participant → Participant) :
    ∀ db : List Participant,
      (applyUpdate pid f db = none ↔ ∀ p ∈ db, p.id ≠ pid)
  | [] => by simp [applyUpdate]
  | q :: qs => by
    simp only [applyUpdate]
    by_cases h : (q.id == pid) = true
    · rw [if_pos h]
      simp only [beq_iff_eq] at h
      simp [h]
    · rw [if_neg h]
      simp only [beq_iff_eq] at h
      cases hqs : applyUpdate pid f qs with
      | none =>
        have h2 := (applyUpdate_none_iff pid f qs).mp hqs
        simpa [h] using h2
      | some r =>
        have h2 : ¬ (∀ p ∈ qs, p.id ≠ pid) := by
          intro hall
          rw [(applyUpdate_none_iff pid f qs).mpr hall] at hqs
          exact Option.noConfusion hqs
        simp [h, h2]

lemma applyUpdate_some {pid : Int} {f : Participant → Participant} :
    ∀ {db : List Participant} {r : Participant} {db' : List Participant},
      applyUpdate pid f db = some (r, db') →
      ∃ l p rest, db = l ++ p :: rest ∧ (∀ q ∈ l, q.id ≠ pid) ∧ p.id = pid ∧
        r = f p ∧ db' = l ++ f p :: rest
  | [], r, db', h => by simp [applyUpdate] at h
  | q :: qs, r, db', h => by
    simp only [applyUpdate] at h
    by_cases hq : (q.id == pid) = true
    · rw [if_pos hq] at h
      simp only [beq_iff_eq] at hq
      obtain ⟨hr, hdb'⟩ := Prod.mk.injEq .. ▸ Option.some.injEq .. ▸ h
      exact ⟨[], q, qs, by simp, by simp, hq, hr.symm, by simp [hdb'.symm]⟩
    · rw [if_neg hq] at h
      simp only [beq_iff_eq] at hq
      cases hqs : applyUpdate pid f qs with
      | none => rw [hqs] at h; exact Option.noConfusion h
      | some rr =>
        obtain ⟨r0, qs'⟩ := rr
        rw [hqs] at h
        obtain ⟨hr, hdb'⟩ := Prod.mk.injEq .. ▸ Option.some.injEq .. ▸ h
        obtain ⟨l, p, rest, hdb, hl, hpid, hr0, hqs'⟩ := applyUpdate_some hqs
        refine ⟨q :: l, p, rest, by simp [hdb], ?_, hpid, by rw [← hr, hr0], ?_⟩
        · intro x hx
          rcases List.mem_cons.mp hx with rfl | hx
          · exact hq
          · exact hl x hx
        · rw [← hdb', hqs']
          simp

lemma runUpdate_error_iff (pid : Int) (f : Participant → Participant)
    (db : List Participant) :
    (runUpdate pid f db).1 = .error (.notFound "Participant not found") ↔
      applyUpdate pid f db = none := by
  unfold runUpdate
  cases h : applyUpdate pid f db with
  | none => simp
  | some r =>
    obtain ⟨p, d⟩ := r
    simp

lemma runUpdate_none_snd {pid : Int} {f : Participant → Participant}
    {db : List Participant} (h : applyUpdate pid f db = none) :
    (runUpdate pid f db).2 = db := by
  unfold runUpdate
  rw [h]

lemma runUpdate_eq_ok {pid : Int} {f : Participant → Participant}
    {db : List Participant} {r : Participant} {db' : List Participant} :
    runUpdate pid f db = (.ok r, db') ↔
      applyUpdate pid f db = some (r, db') := by
  unfold runUpdate
  cases h : applyUpdate pid f db with
  | none => simp
  | some rr =>
    obtain ⟨p, d⟩ := rr
    simp [Prod.ext_iff, eq_comm]

lemma runUpdate_created_map (pid : Int) (f : Participant → Participant)
    (db : List Participant) (hf : ∀ p, (f p).created_at = p.created_at) :
    ((runUpdate pid f db).2).map Participant.created_at =
      db.map Participant.created_at := by
  unfold runUpdate
  cases h : applyUpdate pid f db with
  | none => rfl
  | some rr =>
    obtain ⟨r, d⟩ := rr
    obtain ⟨l, p, rest, hdb, _, _, _, hd⟩ := applyUpdate_some h
    subst hdb
    simp [hd, hf]

lemma runUpdate_inv {now now' : Nat} (pid : Int) (f : Participant → Participant)
    (db : List Participant)
    (hfc : ∀ p, (f p).created_at = p.created_at)
    (hfu : ∀ p, (f p).updated_at = now')
    (hinv : ∀ p ∈ db, p.created_at ≤ p.updated_at ∧ p.updated_at ≤ now)
    (hlt : now < now') :
    ∀ q ∈ (runUpdate pid f db).2,
      q.created_at ≤ q.updated_at ∧ q.updated_at ≤ now' := by
  intro q hq
  unfold runUpdate at hq
  cases h : applyUpdate pid f db with
  | none =>
    rw [h] at hq
    have := hinv q hq
    omega
  | some rr =>
    obtain ⟨r, d⟩ := rr
    rw [h] at hq
    obtain ⟨l, p, rest, hdb, _, _, _, hd⟩ := applyUpdate_some h
    subst hdb
    rw [hd] at hq
    rcases List.mem_append.mp hq with hql | hqc
    · have := hinv q (by simp [hql])
      omega
    · rcases List.mem_cons.mp hqc with rfl | hqr
      · have := hinv p (by simp)
        have h1 := hfc p
        have h2 := hfu p
        omega
      · have := hinv q (by simp [hqr])
        omega

lemma reachable_inv : ∀ s, Reachable s →
    ∀ p ∈ s.1, p.created_at ≤ p.updated_at ∧ p.updated_at ≤ s.2 := by
  intro s hs
  induction hs with
  | init now => intro p hp; simp at hp
  | step _ hstep ih =>
    cases hstep with
    | create db now pid nm rl em ab rs now' hlt =>
      intro p hp
      rcases List.mem_append.mp hp with hp | hp
      · have := ih p hp
        constructor
        · exact this.1
        · exact le_of_lt (lt_of_le_of_lt this.2 hlt)
      · simp at hp
        subst hp
        exact ⟨le_refl _, le_refl _⟩
    | updateMic db now pid mic now' hlt =>
      exact runUpdate_inv pid _ db (fun p => rfl) (fun p => rfl) ih hlt
    | updateCam db now pid cam now' hlt =>
      exact runUpdate_inv pid _ db (fun p => rfl) (fun p => rfl) ih hlt
    | updateSt db now pid onl now' hlt =>
      exact runUpdate_inv pid _ db (fun p => rfl) (fun p => rfl) ih hlt
    | updateMed db now pid mic cam now' hlt =>
      exact runUpdate_inv pid _ db (fun p => rfl) (fun p => rfl) ih hlt

lemma strict_update {pid : Int} {f : Participant → Participant}
    {db db' : List Participant} {r : Participant} {now now' : Nat}
    (hfu : ∀ p, (f p).updated_at = now')
    (hinv : ∀ p ∈ db, p.created_at ≤ p.updated_at ∧ p.updated_at ≤ now)
    (hlt : now < now')
    (h : runUpdate pid f db = (.ok r, db')) :
    r.updated_at = now' ∧ ∀ p ∈ db, p.updated_at < r.updated_at := by
  rw [runUpdate_eq_ok] at h
  obtain ⟨l, p, rest, hdb, _, _, hr, _⟩ := applyUpdate_some h
  subst hr
  refine ⟨hfu p, fun q hq => ?_⟩
  have h1 := (hinv q hq).2
  have h2 := hfu p
  omega

lemma update_unique_mem {pid : Int} {f : Participant → Participant}
    {db db' : List Participant} {r : Participant}
    (hnd : (db.map Participant.id).Nodup)
    (h : runUpdate pid f db = (.ok r, db'))
    (hid : ∀ p, (f p).id = p.id) :
    get_participant pid db' = .ok r ∧ ∀ q ∈ db', q.id = pid → q = r := by
  rw [runUpdate_eq_ok] at h
  obtain ⟨l, p, rest, hdb, hl, hpid, hr, hdb'⟩ := applyUpdate_some h
  subst hr hdb hdb'
  constructor
  · unfold get_participant
    rw [List.find?_append]
    have hlnone : l.find? (fun q => q.id == pid) = none :=
      List.find?_eq_none.mpr (fun x hx => by simpa using hl x hx)
    rw [hlnone]
    simp [List.find?_cons, hid p, hpid]
  · intro q hq hqid
    rcases List.mem_append.mp hq with hql | hqc
    · exact absurd hqid (hl q hql)
    · rcases List.mem_cons.mp hqc with rfl | hqr
      · rfl
      · exfalso
        have hmem : p.id ∈ rest.map Participant.id := by
          rw [hpid, ← hqid]
          exact List.mem_map_of_mem _ hqr
        rw [List.map_append, List.map_cons] at hnd
        have hnd2 : (p.id :: rest.map Participant.id).Nodup :=
          hnd.of_append_right
        exact (List.nodup_cons.mp hnd2).1 hmem

lemma flag_of_ok {pid : Int} {f : Participant → Participant}
    {db db' : List Participant} {r : Participant}
    (h : runUpdate pid f db = (.ok r, db')) : ∃ p, r = f p := by
  rw [runUpdate_eq_ok] at h
  obtain ⟨l, p, rest, _, _, _, hr, _⟩ := applyUpdate_some h
  exact ⟨p, hr⟩

/-! ## Claim theorems -/

/-- C1 (amended): for every List call with a non-empty search string that
contains no SQL LIKE wildcard character (`%` or `_`), every record in the
result has a name containing the search as a case-insensitive substring,
every stored record whose name contains it is in the unpaginated result,
and the filter consults only the name field. -/
theorem list_search_name_substring
    (search : String) (db : List Participant) (limit offset : Int)
    (hs : search ≠ "") (hw : noWildcards search = true) :
    (∀ p ∈ get_participants search limit offset db,
      containsCI search p.name = true)
    ∧ (∀ p ∈ db, containsCI search p.name = true →
        p ∈ get_participants search (-1) 0 db)
    ∧ (∀ p q : Participant, p.name = q.name →
        filterPred search p = filterPred search q) := by
  refine ⟨?_, ?_, ?_⟩
  · intro p hp
    rw [← filterPred_eq_containsCI hw]
    exact pred_of_mem_get hs hp
  · intro p hp hc
    rw [unpaginated_eq, List.mem_insertionSort]
    unfold filterSearch
    rw [if_neg (fun hemp => hs ((String.isEmpty_iff search).mp hemp))]
    refine List.mem_filter.mpr ⟨hp, ?_⟩
    rw [filterPred_eq_containsCI hw]
    exact hc
  · intro p q hname
    unfold filterPred
    rw [hname]

/-- C1 witness: the theorem applied at search "alice" over a two-record
table, giving the substring property for the returned record. -/
theorem list_search_name_substring_witness :
    containsCI "alice" aliceP.name = true :=
  (list_search_name_substring "alice" [aliceP, bobP] 6 0 (by decide)
    (by decide)).1 aliceP (by decide)

/-- C1 counterexample to the claim as stated: "%" is a non-empty search
string, yet List returns a record whose name does not contain "%" as a
(case-insensitive) substring — the unescaped wildcard matches everything. -/
theorem list_search_name_substring_cex :
    ("%" : String) ≠ "" ∧ bobP ∈ get_participants "%" 6 0 [bobP]
    ∧ containsCI "%" bobP.name = false := by decide

/-- C2: with non-negative limit and offset, the List result equals the full
filtered id-ordered sequence with `offset` elements dropped then truncated
to `limit` elements; it is sorted ascending by id and has at most `limit`
records. -/
theorem list_pagination
    (search : String) (db : List Participant) (limit offset : Int)
    (hl : 0 ≤ limit) (_ho : 0 ≤ offset) :
    get_participants search limit offset db =
      ((List.insertionSort idLe (filterSearch search db)).drop
        offset.toNat).take limit.toNat
    ∧ List.Sorted idLe (get_participants search limit offset db)
    ∧ ((get_participants search limit offset db).length : Int) ≤ limit := by
  have heq : get_participants search limit offset db =
      ((List.insertionSort idLe (filterSearch search db)).drop
        offset.toNat).take limit.toNat := by
    unfold get_participants applyLimit applyOffset
    rw [if_neg (not_lt.mpr hl)]
  refine ⟨heq, ?_, ?_⟩
  · exact (List.sorted_insertionSort idLe _).sublist
      (get_participants_sublist search limit offset db)
  · rw [heq]
    have h1 := List.length_take_le limit.toNat
      ((List.insertionSort idLe (filterSearch search db)).drop offset.toNat)
    omega

/-- C2 witness: a concrete page of size 1 at offset 1 over two records. -/
theorem list_pagination_witness :
    ((get_participants "" 1 1 [aliceP, bobP]).length : Int) ≤ 1 :=
  (list_pagination "" [aliceP, bobP] 1 1 (by decide) (by decide)).2.2

/-- C3 evaluated on the code: a negative limit or offset passes parameter
validation and a result sequence is produced (no 422); only a non-numeric
value is rejected with 422.  This contradicts the spec and the repository's
own tests, which expect 422 for `limit=-1` and `offset=-1`. -/
theorem negative_limit_offset_not_rejected :
    listEndpoint none (some "-1") none [aliceP] = .ok [aliceP]
    ∧ listEndpoint none none (some "-1") [aliceP] = .ok [aliceP]
    ∧ listEndpoint none (some "abc") none [aliceP] = .error .validation := by
  decide

/-- C4: Count applies exactly the same name filter as List and equals the
number of elements of the unpaginated List result (offset 0, no limit —
embedded as SQLite's limit −1). -/
theorem count_eq_list_length (search : String) (db : List Participant) :
    get_participants_count search db =
      (get_participants search (-1) 0 db).length := by
  rw [unpaginated_eq, List.length_insertionSort]
  rfl

/-- C5: Get and each of the four updates fail with 404 "Participant not
found" exactly when no record with the id exists, and on such failure the
table is left unchanged. -/
theorem notFound_iff_no_record
    (pid : Int) (db : List Participant) (mic cam onl : Bool) (now : Nat) :
    (get_participant pid db = .error (.notFound "Participant not found") ↔
      ∀ p ∈ db, p.id ≠ pid)
    ∧ ((update_microphone pid mic now db).1 =
        .error (.notFound "Participant not found") ↔ ∀ p ∈ db, p.id ≠ pid)
    ∧ ((update_camera pid cam now db).1 =
        .error (.notFound "Participant not found") ↔ ∀ p ∈ db, p.id ≠ pid)
    ∧ ((update_status pid onl now db).1 =
        .error (.notFound "Participant not found") ↔ ∀ p ∈ db, p.id ≠ pid)
    ∧ ((update_media pid mic cam now db).1 =
        .error (.notFound "Participant not found") ↔ ∀ p ∈ db, p.id ≠ pid)
    ∧ ((∀ p ∈ db, p.id ≠ pid) →
        (update_microphone pid mic now db).2 = db
        ∧ (update_camera pid cam now db).2 = db
        ∧ (update_status pid onl now db).2 = db
        ∧ (update_media pid mic cam now db).2 = db) := by
  refine ⟨?_, ?_, ?_, ?_, ?_, ?_⟩
  · unfold get_participant
    cases h : db.find? (fun p => p.id == pid) with
    | some p =>
      have hmem := List.mem_of_find?_eq_some h
      have hpid := List.find?_some h
      simp only [beq_iff_eq] at hpid
      exact iff_of_false (fun hcontra => Except.noConfusion hcontra)
        (fun hall => (hall p hmem) hpid)
    | none =>
      have hall := List.find?_eq_none.mp h
      exact iff_of_true rfl (by simpa using hall)
  · unfold update_microphone
    rw [runUpdate_error_iff, applyUpdate_none_iff]
  · unfold update_camera
    rw [runUpdate_error_iff, applyUpdate_none_iff]
  · unfold update_status
    rw [runUpdate_error_iff, applyUpdate_none_iff]
  · unfold update_media
    rw [runUpdate_error_iff, applyUpdate_none_iff]
  · intro hall
    refine ⟨?_, ?_, ?_, ?_⟩ <;>
      exact runUpdate_none_snd ((applyUpdate_none_iff _ _ _).mpr hall)

/-- C5 witness: id 3 is absent from a one-record table, so the update
reports 404 and leaves the table unchanged. -/
theorem notFound_iff_no_record_witness :
    (update_microphone 3 true 5 [aliceP]).2 = [aliceP]
    ∧ (update_camera 3 true 5 [aliceP]).2 = [aliceP]
    ∧ (update_status 3 true 5 [aliceP]).2 = [aliceP]
    ∧ (update_media 3 true true 5 [aliceP]).2 = [aliceP] :=
  (notFound_iff_no_record 3 [aliceP] true true true 5).2.2.2.2.2 (by decide)

/-- C6: each successful update rewrites exactly the targeted record,
changing only the named flag(s) and updated_at; every other field and every
other record are unchanged. -/
theorem update_frame
    (pid : Int) (mic cam onl : Bool) (now : Nat)
    (db db' : List Participant) (r : Participant) :
    (update_microphone pid mic now db = (.ok r, db') →
      ∃ l p rest, db = l ++ p :: rest ∧ db' = l ++ r :: rest ∧ p.id = pid ∧
        SameExceptMicTime p r ∧ r.mic_on = mic ∧ r.updated_at = now)
    ∧ (update_camera pid cam now db = (.ok r, db') →
      ∃ l p rest, db = l ++ p :: rest ∧ db' = l ++ r :: rest ∧ p.id = pid ∧
        SameExceptCamTime p r ∧ r.camera_on = cam ∧ r.updated_at = now)
    ∧ (update_status pid onl now db = (.ok r, db') →
      ∃ l p rest, db = l ++ p :: rest ∧ db' = l ++ r :: rest ∧ p.id = pid ∧
        SameExceptOnlineTime p r ∧ r.online = onl ∧ r.updated_at = now)
    ∧ (update_media pid mic cam now db = (.ok r, db') →
      ∃ l p rest, db = l ++ p :: rest ∧ db' = l ++ r :: rest ∧ p.id = pid ∧
        SameExceptMediaTime p r ∧ r.mic_on = mic ∧ r.camera_on = cam ∧
        r.updated_at = now) := by
  refine ⟨?_, ?_, ?_, ?_⟩ <;> intro h
  · rw [update_microphone, runUpdate_eq_ok] at h
    obtain ⟨l, p, rest, hdb, _, hpid, hr, hdb'⟩ := applyUpdate_some h
    subst hr
    exact ⟨l, p, rest, hdb, hdb', hpid,
      ⟨rfl, rfl, rfl, rfl, rfl, rfl, rfl, rfl, rfl⟩, rfl, rfl⟩
  · rw [update_camera, runUpdate_eq_ok] at h
    obtain ⟨l, p, rest, hdb, _, hpid, hr, hdb'⟩ := applyUpdate_some h
    subst hr
    exact ⟨l, p, rest, hdb, hdb', hpid,
      ⟨rfl, rfl, rfl, rfl, rfl, rfl, rfl, rfl, rfl⟩, rfl, rfl⟩
  · rw [update_status, runUpdate_eq_ok] at h
    obtain ⟨l, p, rest, hdb, _, hpid, hr, hdb'⟩ := applyUpdate_some h
    subst hr
    exact ⟨l, p, rest, hdb, hdb', hpid,
      ⟨rfl, rfl, rfl, rfl, rfl, rfl, rfl, rfl, rfl⟩, rfl, rfl⟩
  · rw [update_media, runUpdate_eq_ok] at h
    obtain ⟨l, p, rest, hdb, _, hpid, hr, hdb'⟩ := applyUpdate_some h
    subst hr
    exact ⟨l, p, rest, hdb, hdb', hpid,
      ⟨rfl, rfl, rfl, rfl, rfl, rfl, rfl, rfl⟩, rfl, rfl, rfl⟩

/-- C6 witness: turning Alice's microphone off at time 20 rewrites exactly
her record. -/
theorem update_frame_witness :
    ∃ l p rest, ([aliceP] : List Participant) = l ++ p :: rest ∧
      [alicePMicOff] = l ++ alicePMicOff :: rest ∧ p.id = 1 ∧
      SameExceptMicTime p alicePMicOff ∧ alicePMicOff.mic_on = false ∧
      alicePMicOff.updated_at = 20 :=
  (update_frame 1 false false false 20 [aliceP] [alicePMicOff]
    alicePMicOff).1 (by decide)

/-- C7: a record created through the model defaults has created_at equal
to updated_at; no update operation ever changes any created_at column;
in every reachable state created_at ≤ updated_at (and updated_at never
exceeds the clock); and under clock monotonicity every successful update
sets updated_at to the current time, strictly above every prior
updated_at in the table. -/
theorem created_updated_invariants
    (pid : Int) (nm rl em : String) (ab rs : Option String)
    (mic cam onl : Bool) (now now' : Nat) (db db' : List Participant)
    (r : Participant)
    (hreach : Reachable (db, now)) (hlt : now < now') :
    ((mkParticipant pid nm rl em ab rs now').created_at = now'
      ∧ (mkParticipant pid nm rl em ab rs now').updated_at = now')
    ∧ ((update_microphone pid mic now' db).2.map Participant.created_at =
        db.map Participant.created_at
      ∧ (update_camera pid cam now' db).2.map Participant.created_at =
        db.map Participant.created_at
      ∧ (update_status pid onl now' db).2.map Participant.created_at =
        db.map Participant.created_at
      ∧ (update_media pid mic cam now' db).2.map Participant.created_at =
        db.map Participant.created_at)
    ∧ (∀ p ∈ db, p.created_at ≤ p.updated_at ∧ p.updated_at ≤ now)
    ∧ (update_microphone pid mic now' db = (.ok r, db') →
        r.updated_at = now' ∧ ∀ p ∈ db, p.updated_at < r.updated_at)
    ∧ (update_camera pid cam now' db = (.ok r, db') →
        r.updated_at = now' ∧ ∀ p ∈ db, p.updated_at < r.updated_at)
    ∧ (update_status pid onl now' db = (.ok r, db') →
        r.updated_at = now' ∧ ∀ p ∈ db, p.updated_at < r.updated_at)
    ∧ (update_media pid mic cam now' db = (.ok r, db') →
        r.updated_at = now' ∧ ∀ p ∈ db, p.updated_at < r.updated_at) := by
  have hinv := reachable_inv (db, now) hreach
  refine ⟨⟨rfl, rfl⟩, ⟨?_, ?_, ?_, ?_⟩, hinv, ?_, ?_, ?_, ?_⟩
  · exact runUpdate_created_map pid _ db (fun p => rfl)
  · exact runUpdate_created_map pid _ db (fun p => rfl)
  · exact runUpdate_created_map pid _ db (fun p => rfl)
  · exact runUpdate_created_map pid _ db (fun p => rfl)
  · exact fun h => strict_update (fun p => rfl) hinv hlt h
  · exact fun h => strict_update (fun p => rfl) hinv hlt h
  · exact fun h => strict_update (fun p => rfl) hinv hlt h
  · exact fun h => strict_update (fun p => rfl) hinv hlt h

/-- C7 witness: the invariants at the freshly created state ([], 0),
clock advancing to 1. -/
theorem created_updated_invariants_witness :
    (mkParticipant 1 "Alice Johnson" "Host" "alice@test.com" none none
      1).created_at = 1
    ∧ (mkParticipant 1 "Alice Johnson" "Host" "alice@test.com" none none
      1).updated_at = 1 :=
  (created_updated_invariants 1 "Alice Johnson" "Host" "alice@test.com"
    none none true false true 0 1 [] [] aliceP (Reachable.init 0)
    (by decide)).1

/-- C8: a successful update returns the record carrying the new flag value,
and every subsequent Get or List call over the new table observes it
(read-your-writes), given primary-key uniqueness of ids. -/
theorem update_read_your_writes
    (pid : Int) (b b2 : Bool) (now : Nat) (db db' : List Participant)
    (r : Participant) (hnd : (db.map Participant.id).Nodup) :
    (update_microphone pid b now db = (.ok r, db') →
      r.mic_on = b ∧ get_participant pid db' = .ok r ∧
      ∀ search limit offset, ∀ q ∈ get_participants search limit offset db',
        q.id = pid → q.mic_on = b)
    ∧ (update_camera pid b now db = (.ok r, db') →
      r.camera_on = b ∧ get_participant pid db' = .ok r ∧
      ∀ search limit offset, ∀ q ∈ get_participants search limit offset db',
        q.id = pid → q.camera_on = b)
    ∧ (update_status pid b now db = (.ok r, db') →
      r.online = b ∧ get_participant pid db' = .ok r ∧
      ∀ search limit offset, ∀ q ∈ get_participants search limit offset db',
        q.id = pid → q.online = b)
    ∧ (update_media pid b b2 now db = (.ok r, db') →
      r.mic_on = b ∧ r.camera_on = b2 ∧ get_participant pid db' = .ok r ∧
      ∀ search limit offset, ∀ q ∈ get_participants search limit offset db',
        q.id = pid → q.mic_on = b ∧ q.camera_on = b2) := by
  refine ⟨?_, ?_, ?_, ?_⟩ <;> intro h
  · rw [update_microphone] at h
    obtain ⟨p, rfl⟩ := flag_of_ok h
    have hu := update_unique_mem hnd h (fun p => rfl)
    exact ⟨rfl, hu.1, fun search limit offset q hq hqid => by
      rw [hu.2 q (mem_get_participants hq) hqid]⟩
  · rw [update_camera] at h
    obtain ⟨p, rfl⟩ := flag_of_ok h
    have hu := update_unique_mem hnd h (fun p => rfl)
    exact ⟨rfl, hu.1, fun search limit offset q hq hqid => by
      rw [hu.2 q (mem_get_participants hq) hqid]⟩
  · rw [update_status] at h
    obtain ⟨p, rfl⟩ := flag_of_ok h
    have hu := update_unique_mem hnd h (fun p => rfl)
    exact ⟨rfl, hu.1, fun search limit offset q hq hqid => by
      rw [hu.2 q (mem_get_participants hq) hqid]⟩
  · rw [update_media] at h
    obtain ⟨p, rfl⟩ := flag_of_ok h
    have hu := update_unique_mem hnd h (fun p => rfl)
    exact ⟨rfl, rfl, hu.1, fun search limit offset q hq hqid => by
      rw [hu.2 q (mem_get_participants hq) hqid]
      exact ⟨rfl, rfl⟩⟩

/-- C8 witness: after UpdateMicrophone(1, false) at time 20, Get(1) returns
the updated record. -/
theorem update_read_your_writes_witness :
    get_participant 1 [alicePMicOff] = .ok alicePMicOff :=
  ((update_read_your_writes 1 false false 20 [aliceP] [alicePMicOff]
    alicePMicOff (by decide)).1 (by decide)).2.1

/-- C9 evaluated on the code: the microphone, camera and status routes are
registered for PATCH only; a PUT request matches no registered route (the
framework then answers 405, not 200).  This contradicts the spec's
PATCH/PUT table and the repository's own tests, which send PUT and expect
success. -/
theorem update_routes_patch_only :
    acceptsRoute .patch "/participants/{participant_id}/microphone" = true
    ∧ acceptsRoute .put "/participants/{participant_id}/microphone" = false
    ∧ acceptsRoute .patch "/participants/{participant_id}/camera" = true
    ∧ acceptsRoute .put "/participants/{participant_id}/camera" = false
    ∧ acceptsRoute .patch "/participants/{participant_id}/status" = true
    ∧ acceptsRoute .put "/participants/{participant_id}/status" = false := by
  decide

/-- C10: the search string is interpolated unescaped into the `%search%`
LIKE pattern, so a search containing a wildcard returns (and counts)
records whose name does not contain the search text as a literal
substring. -/
theorem wildcard_search_overmatches :
    ∃ (search : String) (db : List Participant) (p : Participant),
      search.data.contains '%' = true
      ∧ p ∈ get_participants search 6 0 db
      ∧ get_participants_count search db = 1
      ∧ hasSubChars search.data p.name.data = false
      ∧ containsCI search p.name = false :=
  ⟨"%", [bobP], bobP, by decide⟩

end VideoCall
